import Mathlib

/-!
Shallow embedding of the streamtabs core (src/main.rs): tab store,
stream-to-tab dispatch, pause/unread counters, the SGR mouse input decoder,
ANSI clipping, and the viewport/selection model.  Strings are modelled as
`List Char`, raw TTY bytes as `Nat`, and the u64/usize counters as `Nat`
(Rust saturating subtraction becomes truncated `Nat` subtraction).
-/

/-- Capacity bound of each tab's line buffer (`MAX_STORED_LINES_PER_TAB`). -/
def MAX_STORED_LINES_PER_TAB : Nat := 5000

/-- A stored line: global arrival index plus text (`struct LineRecord`). -/
structure LineRecord where
  seq : Nat
  text : List Char
deriving DecidableEq

/-- Tab filter mode (`enum MatchMode`): accept everything, or require a
literal substring. -/
inductive MatchMode where
  | All : MatchMode
  | Contains : List Char → MatchMode
deriving DecidableEq

/-- A tab (`struct Tab`): label, filter, bounded line buffer (front of the
list is the oldest record, matching the `VecDeque` front), and the two
match counters. -/
structure Tab where
  label : List Char
  mode : MatchMode
  lines : List LineRecord
  total_matches : Nat
  seen_matches : Nat
deriving DecidableEq

/-- `Tab::new`: a substring-filter tab. -/
def Tab.new (filter : List Char) : Tab :=
  { label := filter, mode := MatchMode.Contains filter, lines := [],
    total_matches := 0, seen_matches := 0 }

/-- `Tab::unfiltered`: the implicit accept-all tab. -/
def Tab.unfiltered : Tab :=
  { label := [], mode := MatchMode.All, lines := [],
    total_matches := 0, seen_matches := 0 }

/-- Does `line` begin with `pat`? (helper for the substring test). -/
def leadsWith : List Char → List Char → Bool
  | [], _ => true
  | _ :: _, [] => false
  | p :: ps, c :: cs => p = c && leadsWith ps cs

/-- Does `pat` occur as a contiguous substring of `line`?  This is Rust's
`line.contains(filter)` for literal patterns. -/
def hasSubstring (pat : List Char) : List Char → Bool
  | [] => pat.isEmpty
  | c :: cs => leadsWith pat (c :: cs) || hasSubstring pat cs

/-- `Tab::matches`: `All` accepts every line, `Contains s` tests for a
contiguous substring occurrence. -/
def Tab.matches (tab : Tab) (line : List Char) : Bool :=
  match tab.mode with
  | MatchMode.All => true
  | MatchMode.Contains filter => hasSubstring filter line

/-- `Tab::push_line`: append the record, bump `total_matches`, and evict the
front when the buffer has grown past capacity. -/
def Tab.push_line (tab : Tab) (seq : Nat) (line : List Char) : Tab :=
  let lines := tab.lines ++ [{ seq := seq, text := line }]
  let lines := if lines.length > MAX_STORED_LINES_PER_TAB then lines.tail else lines
  { tab with lines := lines, total_matches := tab.total_matches + 1 }

/-- `Tab::unread_matches`: saturating `total_matches - seen_matches`. -/
def Tab.unread_matches (tab : Tab) : Nat :=
  tab.total_matches - tab.seen_matches

/-- `Tab::mark_seen_through`: raise `seen_matches` to
`min max_match_index total_matches`, never lowering it. -/
def Tab.mark_seen_through (tab : Tab) (max_match_index : Nat) : Tab :=
  let capped := min max_match_index tab.total_matches
  if capped > tab.seen_matches then { tab with seen_matches := capped } else tab

/-- Point update of a tab list; out-of-range indices are a no-op, matching
`tabs.get_mut(index)` returning `None`. -/
def updateAt : List Tab → Nat → (Tab → Tab) → List Tab
  | [], _, _ => []
  | t :: ts, 0, f => f t :: ts
  | t :: ts, n + 1, f => t :: updateAt ts n f

/-- `mark_tab_seen_live`: mark tab `index` seen up to its own total. -/
def mark_tab_seen_live (tabs : List Tab) (index : Nat) : List Tab :=
  updateAt tabs index (fun tab => tab.mark_seen_through tab.total_matches)

/-- `mark_tab_seen_paused`: mark tab `index` seen up to the pause cutoff,
defaulting to the tab's own total when the cutoff list is too short. -/
def mark_tab_seen_paused (tabs : List Tab) (index : Nat)
    (pause_match_cutoffs : List Nat) : List Tab :=
  updateAt tabs index (fun tab =>
    tab.mark_seen_through (pause_match_cutoffs.getD index tab.total_matches))

/-- Pause snapshot (`struct PauseSnapshot`): per-tab buffered-line counts and
`total_matches` values captured when pause was entered. -/
structure PauseSnapshot where
  line_cutoffs : List Nat
  match_cutoffs : List Nat
deriving DecidableEq

/-- `select_tab`: reject out-of-range targets, otherwise switch and mark the
new active tab seen with the mode-appropriate cutoff.  Returns the updated
tab list and the updated `active_index`. -/
def select_tab (tabs : List Tab) (active_index : Nat) (next_index : Nat)
    (paused : Bool) (pause_snapshot : Option PauseSnapshot) :
    List Tab × Nat :=
  if next_index ≥ tabs.length then (tabs, active_index)
  else
    if paused then
      match pause_snapshot with
      | some snapshot =>
        (mark_tab_seen_paused tabs next_index snapshot.match_cutoffs, next_index)
      | none => (tabs, next_index)
    else
      (mark_tab_seen_live tabs next_index, next_index)

/-- The per-tab effect of `apply_line_to_tabs` at position `index`. -/
def applyLineStep (active_index : Nat) (paused : Bool) (seq : Nat)
    (line : List Char) (index : Nat) (tab : Tab) : Tab :=
  if tab.matches line then
    let tab := tab.push_line seq line
    if index = active_index ∧ paused = false then
      tab.mark_seen_through tab.total_matches
    else tab
  else tab

def applyLineGo (active_index : Nat) (paused : Bool) (seq : Nat)
    (line : List Char) : Nat → List Tab → List Tab
  | _, [] => []
  | i, t :: ts =>
    applyLineStep active_index paused seq line i t ::
      applyLineGo active_index paused seq line (i + 1) ts

/-- `apply_line_to_tabs`: dispatch one incoming line to every tab in order;
matching tabs store it and, when they are the active tab in live mode,
immediately mark it seen. -/
def apply_line_to_tabs (tabs : List Tab) (active_index : Nat) (paused : Bool)
    (seq : Nat) (line : List Char) : List Tab :=
  applyLineGo active_index paused seq line 0 tabs

/-- UI events (`enum UiMessage`). -/
inductive UiMessage where
  | NextTab : UiMessage
  | SelectTab : Nat → UiMessage
  | TogglePause : UiMessage
  | ClearSelection : UiMessage
  | SelectMiddleVisibleLine : UiMessage
  | MouseLeftDown : Nat → Nat → UiMessage
  | Quit : UiMessage
  | Error : List Char → UiMessage
deriving DecidableEq

/-- `key_message_from_byte`: the single-byte key table. -/
def key_message_from_byte (byte : Nat) : Option UiMessage :=
  if byte = 9 then some UiMessage.NextTab
  else if 49 ≤ byte ∧ byte ≤ 57 then some (UiMessage.SelectTab (byte - 48))
  else if byte = 48 then some (UiMessage.SelectTab 0)
  else if byte = 32 then some UiMessage.TogglePause
  else if byte = 100 ∨ byte = 68 then some UiMessage.ClearSelection
  else if byte = 115 ∨ byte = 83 then some UiMessage.SelectMiddleVisibleLine
  else if byte = 113 ∨ byte = 81 ∨ byte = 3 then some UiMessage.Quit
  else none

/-- One step of Rust's `u16::from_str` digit loop: consume decimal digit
bytes most-significant first, failing on a non-digit byte or on overflow
past `u16::MAX = 65535`. -/
def parseU16Digits : List Nat → Nat → Option Nat
  | [], acc => some acc
  | b :: bs, acc =>
    if 48 ≤ b ∧ b ≤ 57 then
      let v := acc * 10 + (b - 48)
      if v ≤ 65535 then parseU16Digits bs v else none
    else none

/-- Rust's `str::parse::<u16>` on a byte list: an optional leading plus
sign, then one or more decimal digits, with overflow checking. -/
def parseU16 (bs : List Nat) : Option Nat :=
  let ds := if bs.head? = some 43 then bs.tail else bs
  if ds.isEmpty then none else parseU16Digits ds 0

/-- `str::split(';')` at the byte level (the relevant payloads are ASCII):
splits on byte 59, keeping empty pieces, and yields one (possibly empty)
piece even for the empty input. -/
def splitSemis : List Nat → List (List Nat)
  | [] => [[]]
  | b :: rest =>
    let r := splitSemis rest
    if b = 59 then [] :: r
    else
      match r with
      | p :: ps => (b :: p) :: ps
      | [] => [[b]]

/-- `try_parse_sgr_mouse_message`: decode a completed CSI buffer as an SGR
mouse report `<Cb;Col;RowM`.  Emits a left-button press (1-based
coordinates made 0-based with saturating subtraction) exactly when the
button bits are 0 and neither the motion bit (0x20) nor the wheel bit
(0x40) is set. -/
def try_parse_sgr_mouse_message (sequence : List Nat) : Option UiMessage :=
  match sequence.getLast? with
  | none => none
  | some final_byte =>
    let params := sequence.dropLast
    if final_byte = 77 ∧ params.head? = some 60 then
      match splitSemis params.tail with
      | [cbs, cols, rows] =>
        match parseU16 cbs, parseU16 cols, parseU16 rows with
        | some cb, some col, some row =>
          if cb &&& 3 = 0 ∧ cb &&& 32 = 0 ∧ cb &&& 64 = 0 then
            some (UiMessage.MouseLeftDown (col - 1) (row - 1))
          else none
        | _, _, _ => none
      | _ => none
    else none

/-- Decoder states (`enum InputParserState`). -/
inductive InputParserState where
  | Ground : InputParserState
  | Esc : InputParserState
  | Csi : List Nat → InputParserState
deriving DecidableEq

/-- `InputParser::feed`: one byte in, at most one UI event out.  `0x1b`
enters `Esc`; `Esc` turns into `Csi` on `[`; a CSI accumulates bytes until
a final byte in `0x40..=0x7e` arrives, at which point the buffer is
decoded as an SGR mouse report. -/
def feed : InputParserState → Nat → InputParserState × Option UiMessage
  | InputParserState.Ground, byte =>
    if byte = 27 then (InputParserState.Esc, none)
    else (InputParserState.Ground, key_message_from_byte byte)
  | InputParserState.Esc, byte =>
    if byte = 91 then (InputParserState.Csi [], none)
    else (InputParserState.Ground, none)
  | InputParserState.Csi buf, byte =>
    let buf := buf ++ [byte]
    if 64 ≤ byte ∧ byte ≤ 126 then
      (InputParserState.Ground, try_parse_sgr_mouse_message buf)
    else (InputParserState.Csi buf, none)

/-- Feed a whole byte list, collecting the emitted events in order. -/
def runFeed : InputParserState → List Nat → InputParserState × List UiMessage
  | st, [] => (st, [])
  | st, b :: bs =>
    match feed st b with
    | (st1, ev) =>
      match runFeed st1 bs with
      | (st2, evs) =>
        (st2, (match ev with | some e => [e] | none => []) ++ evs)

/-- The decimal digit bytes of `n`, most significant first (`fuel`-driven so
that it reduces by `decide`; `decimalBytes` supplies enough fuel). -/
def toDecAux : Nat → Nat → List Nat
  | 0, _ => []
  | fuel + 1, n => if n = 0 then [] else toDecAux fuel (n / 10) ++ [n % 10 + 48]

/-- The ASCII decimal representation of `n` as a byte list. -/
def decimalBytes (n : Nat) : List Nat :=
  if n = 0 then [48] else toDecAux n n

/-- The escape character `\x1b`. -/
def escChar : Char := Char.ofNat 27

/-- `is_ansi_final_byte`: the CSI final-byte range `'@'..='~'`. -/
def is_ansi_final_byte (c : Char) : Bool :=
  decide (64 ≤ c.toNat ∧ c.toNat ≤ 126)

/-- `clip_to_width`: keep the first `width` characters. -/
def clip_to_width (text : List Char) (width : Nat) : List Char :=
  if width = 0 then [] else text.take width

/-- Shared scanner state of `strip_ansi` / `clip_ansi_to_visible_width`:
plain text, just after an escape byte, or inside a `CSI` sequence.  The
imperative loops in the source consume the byte after `ESC`
unconditionally and, when it is `[`, keep consuming until a final byte;
this state machine is that loop unrolled per character. -/
inductive AnsiSt where
  | ground : AnsiSt
  | sawEsc : AnsiSt
  | inCsi : AnsiSt
deriving DecidableEq

/-- `strip_ansi` as a state machine: drop every escape sequence, keep the
visible characters. -/
def stripRun : AnsiSt → List Char → List Char
  | _, [] => []
  | AnsiSt.ground, c :: cs =>
    if c = escChar then stripRun AnsiSt.sawEsc cs else c :: stripRun AnsiSt.ground cs
  | AnsiSt.sawEsc, c :: cs =>
    if c = Char.ofNat 91 then stripRun AnsiSt.inCsi cs else stripRun AnsiSt.ground cs
  | AnsiSt.inCsi, c :: cs =>
    if is_ansi_final_byte c then stripRun AnsiSt.ground cs else stripRun AnsiSt.inCsi cs

/-- `strip_ansi`: remove ANSI escape sequences, keeping visible text. -/
def strip_ansi (text : List Char) : List Char :=
  stripRun AnsiSt.ground text

/-- The `ESC[0m` reset appended when a styled line is clipped mid-text. -/
def resetSeq : List Char :=
  [Char.ofNat 27, Char.ofNat 91, Char.ofNat 48, Char.ofNat 109]

/-- `clip_ansi_to_visible_width` as a state machine.  `vis` counts visible
characters already emitted, `sa` records whether any escape was seen; when
a visible character arrives with the budget exhausted the loop breaks,
emitting the reset tail iff an escape was seen. -/
def clipRun : AnsiSt → Nat → Nat → Bool → List Char → List Char
  | _, _, _, _, [] => []
  | AnsiSt.ground, w, vis, sa, c :: cs =>
    if c = escChar then c :: clipRun AnsiSt.sawEsc w vis true cs
    else if w ≤ vis then (if sa then resetSeq else [])
    else c :: clipRun AnsiSt.ground w (vis + 1) sa cs
  | AnsiSt.sawEsc, w, vis, sa, c :: cs =>
    c :: (if c = Char.ofNat 91 then clipRun AnsiSt.inCsi w vis sa cs
          else clipRun AnsiSt.ground w vis sa cs)
  | AnsiSt.inCsi, w, vis, sa, c :: cs =>
    c :: (if is_ansi_final_byte c then clipRun AnsiSt.ground w vis sa cs
          else clipRun AnsiSt.inCsi w vis sa cs)

/-- `clip_ansi_to_visible_width`: clip to `width` visible characters while
copying ANSI escape sequences through unchanged. -/
def clip_ansi_to_visible_width (text : List Char) (width : Nat) : List Char :=
  if width = 0 then [] else clipRun AnsiSt.ground width 0 false text

/-- The stdin reader's per-line trim (`spawn_input_reader`): pop a trailing
`\n`, and then a trailing `\r` only when the `\n` was present. -/
def trimLine (s : List Char) : List Char :=
  if s.getLast? = some (Char.ofNat 10) then
    let s1 := s.dropLast
    if s1.getLast? = some (Char.ofNat 13) then s1.dropLast else s1
  else s

/-- The decimal digit characters of `n`, most significant first. -/
def decimalChars (n : Nat) : List Char :=
  (decimalBytes n).map Char.ofNat

/-- `format_unread_slot`: the 6-column unread badge.  `format!("{:>6}", s)`
right-aligns `s` by padding spaces on the left up to 6 characters. -/
def format_unread_slot (unread : Nat) : List Char :=
  if unread = 0 then List.replicate 6 (Char.ofNat 32)
  else
    let badge :=
      if unread > 999 then
        Char.ofNat 8226 :: [Char.ofNat 57, Char.ofNat 57, Char.ofNat 57, Char.ofNat 43]
      else Char.ofNat 8226 :: decimalChars unread
    List.replicate (6 - badge.length) (Char.ofNat 32) ++ badge

/-- `first_body_row`: bottom-anchored first row of the body. -/
def first_body_row (body_start_row body_height visible_count : Nat) : Nat :=
  body_start_row + (body_height - visible_count)

/-- The cross-tab pin (`struct SelectedLine`). -/
structure SelectedLine where
  seq : Nat
  text : List Char
deriving DecidableEq

/-- A line as placed on screen (`struct RenderedLine`). -/
structure RenderedLine where
  seq : Nat
  text : List Char
  selected : Bool
deriving DecidableEq

/-- Mark the first record whose `seq` equals `sel` as selected, leaving the
rest untouched (`lines.iter_mut().find(..)` in `prepare_visible_lines`). -/
def markFirst (sel : Nat) : List RenderedLine → List RenderedLine
  | [] => []
  | l :: ls =>
    if l.seq = sel then { l with selected := true } :: ls
    else l :: markFirst sel ls

/-- Insert `x` at position `n` (append when `n` is past the end), matching
`Vec::insert` at an index obtained from `position(..).unwrap_or(len)`. -/
def insertAt (n : Nat) (x : RenderedLine) : List RenderedLine → List RenderedLine
  | [] => [x]
  | l :: ls =>
    match n with
    | 0 => x :: l :: ls
    | m + 1 => l :: insertAt m x ls

/-- `prepare_visible_lines`: the cutoff-limited buffer as unselected
rendered lines, with the pin spliced in — marking an existing record with
the pin's `seq`, or inserting a synthetic selected line at the first
position whose `seq` exceeds the pin's. -/
def prepare_visible_lines (tab : Tab) (cutoff_len : Nat)
    (selected_line : Option SelectedLine) : List RenderedLine :=
  let lines := (tab.lines.take cutoff_len).map fun l =>
    { seq := l.seq, text := l.text, selected := false }
  match selected_line with
  | none => lines
  | some selected =>
    if lines.any fun l => l.seq = selected.seq then markFirst selected.seq lines
    else
      let insert_at := lines.findIdx fun l => selected.seq < l.seq
      insertAt insert_at { seq := selected.seq, text := selected.text, selected := true } lines

/-- `viewport_for_lines`: returns `(start_index, visible_count, first_row)`.
Live mode (and paused mode without a selection) bottom-anchors the last
`visible_count` entries; paused mode with a selection centers the first
selected entry, clamped to the valid window. -/
def viewport_for_lines (body_start_row body_height : Nat)
    (lines : List RenderedLine) (paused : Bool) : Nat × Nat × Nat :=
  let visible_count := min lines.length body_height
  if visible_count = 0 then (0, 0, body_start_row)
  else
    match (if paused then lines.findIdx? (fun l => l.selected) else none) with
    | some selected_index =>
      let half := body_height / 2
      let start0 := selected_index - half
      let max_start := lines.length - visible_count
      let start_index := if start0 > max_start then max_start else start0
      let selected_row := selected_index - start_index
      let desired_selected_row := body_height / 2
      let min_first_row := body_start_row
      let max_first_row := body_start_row + (body_height - visible_count)
      let fr0 := body_start_row + (desired_selected_row - selected_row)
      let fr1 := if fr0 < min_first_row then min_first_row else fr0
      let fr2 := if fr1 > max_first_row then max_first_row else fr1
      (start_index, visible_count, fr2)
    | none =>
      (lines.length - visible_count, visible_count,
       first_body_row body_start_row body_height visible_count)

/-- A clickable tab region from the last draw (`struct TabHitbox`). -/
structure TabHitbox where
  index : Nat
  left : Nat
  right : Nat
deriving DecidableEq

/-- The hit-test cache of the last draw (`struct RenderState`). -/
structure RenderState where
  tab_hitboxes : List TabHitbox
  line_rows : List (Option RenderedLine)
deriving DecidableEq

/-- `tab_index_at_position`: rows 0..=2 are the tab strip; return the index
of the first hitbox containing the column. -/
def tab_index_at_position (render_state : RenderState) (column row : Nat) :
    Option Nat :=
  if row > 2 then none
  else
    (render_state.tab_hitboxes.find? fun hitbox =>
      hitbox.left ≤ column && column ≤ hitbox.right).map fun hitbox => hitbox.index

/-- `line_at_row`: the rendered line occupying a screen row, if any. -/
def line_at_row (render_state : RenderState) (row : Nat) : Option RenderedLine :=
  (render_state.line_rows.get? row).bind id

/-- `toggle_selected_line`: clicking the pinned line unpins it; anything
else becomes the pin. -/
def toggle_selected_line (selected_line : Option SelectedLine)
    (line : RenderedLine) : Option SelectedLine :=
  if selected_line.map (fun current => current.seq) = some line.seq then none
  else some { seq := line.seq, text := line.text }

/-- `middle_visible_line`: the lower-middle occupied row of the last
rendered frame. -/
def middle_visible_line (render_state : RenderState) : Option RenderedLine :=
  let visible_lines := render_state.line_rows.filterMap id
  if visible_lines.isEmpty then none
  else visible_lines.get? (visible_lines.length / 2)

/-- The coordinator state that the `run` loop mutates (terminal size and
the dirty flag are omitted: no claim mentions them). -/
structure AppState where
  tabs : List Tab
  active_index : Nat
  paused : Bool
  pause_snapshot : Option PauseSnapshot
  selected_line : Option SelectedLine
  last_render_state : RenderState

/-- The UI-event arm of the `run` loop.  `Quit` and `Error` exit the loop
without touching the tab state, so they are modelled as the identity. -/
def handleUi (s : AppState) : UiMessage → AppState
  | UiMessage.NextTab =>
    let next_index := (s.active_index + 1) % s.tabs.length
    let r := select_tab s.tabs s.active_index next_index s.paused s.pause_snapshot
    { s with tabs := r.1, active_index := r.2 }
  | UiMessage.SelectTab tab_index =>
    if tab_index < s.tabs.length then
      let r := select_tab s.tabs s.active_index tab_index s.paused s.pause_snapshot
      { s with tabs := r.1, active_index := r.2 }
    else s
  | UiMessage.TogglePause =>
    if !s.paused then
      let snapshot : PauseSnapshot :=
        { line_cutoffs := s.tabs.map fun tab => tab.lines.length,
          match_cutoffs := s.tabs.map fun tab => tab.total_matches }
      { s with paused := true, pause_snapshot := some snapshot,
               tabs := mark_tab_seen_paused s.tabs s.active_index snapshot.match_cutoffs }
    else
      { s with paused := false, pause_snapshot := none,
               tabs := mark_tab_seen_live s.tabs s.active_index }
  | UiMessage.ClearSelection => { s with selected_line := none }
  | UiMessage.SelectMiddleVisibleLine =>
    match middle_visible_line s.last_render_state with
    | some line =>
      { s with selected_line := toggle_selected_line s.selected_line line }
    | none => s
  | UiMessage.MouseLeftDown column row =>
    match tab_index_at_position s.last_render_state column row with
    | some tab_index =>
      let r := select_tab s.tabs s.active_index tab_index s.paused s.pause_snapshot
      { s with tabs := r.1, active_index := r.2 }
    | none =>
      match line_at_row s.last_render_state row with
      | some line =>
        { s with selected_line := toggle_selected_line s.selected_line line }
      | none => s
  | UiMessage.Quit => s
  | UiMessage.Error _ => s

/-- The tab/seen operations a single tab undergoes (for the
`seen_matches ≤ total_matches` invariant). -/
inductive TabOp where
  | push : Nat → List Char → TabOp
  | markSeen : Nat → TabOp

/-- Run a sequence of operations against one tab. -/
def applyOps : Tab → List TabOp → Tab
  | tab, [] => tab
  | tab, TabOp.push seq line :: ops => applyOps (tab.push_line seq line) ops
  | tab, TabOp.markSeen m :: ops => applyOps (tab.mark_seen_through m) ops

/-! ### Helper lemmas -/

theorem getD_of_getq {α : Type} {l : List α} {i : Nat} {c : α}
    (h : l.get? i = some c) (d : α) : l.getD i d = c := by
  induction l generalizing i with
  | nil => simp at h
  | cons x xs ih =>
    cases i with
    | zero => simp_all
    | succ n => simpa using ih (by simpa using h)

theorem updateAt_length (l : List Tab) (i : Nat) (f : Tab → Tab) :
    (updateAt l i f).length = l.length := by
  induction l generalizing i with
  | nil => simp [updateAt]
  | cons t ts ih => cases i <;> simp [updateAt, ih]

theorem updateAt_getD (l : List Tab) (i : Nat) (f : Tab → Tab) (d : Tab)
    (h : i < l.length) : (updateAt l i f).getD i d = f (l.getD i d) := by
  induction l generalizing i with
  | nil => simp at h
  | cons t ts ih =>
    cases i with
    | zero => simp [updateAt]
    | succ n => simpa [updateAt] using ih n (by simpa using h)

theorem mark_seen_through_seen (tab : Tab) (m : Nat) :
    (tab.mark_seen_through m).seen_matches =
      max tab.seen_matches (min m tab.total_matches) := by
  unfold Tab.mark_seen_through
  dsimp only
  split
  · dsimp only
    omega
  · omega

theorem mark_seen_through_total (tab : Tab) (m : Nat) :
    (tab.mark_seen_through m).total_matches = tab.total_matches := by
  unfold Tab.mark_seen_through
  dsimp only
  split <;> rfl

theorem mark_seen_through_lines (tab : Tab) (m : Nat) :
    (tab.mark_seen_through m).lines = tab.lines := by
  unfold Tab.mark_seen_through
  dsimp only
  split <;> rfl

theorem push_line_total (tab : Tab) (seq : Nat) (line : List Char) :
    (tab.push_line seq line).total_matches = tab.total_matches + 1 := rfl

theorem push_line_seen (tab : Tab) (seq : Nat) (line : List Char) :
    (tab.push_line seq line).seen_matches = tab.seen_matches := rfl

theorem push_line_lines (tab : Tab) (seq : Nat) (line : List Char) :
    (tab.push_line seq line).lines =
      if (tab.lines ++ [({ seq := seq, text := line } : LineRecord)]).length >
          MAX_STORED_LINES_PER_TAB then
        (tab.lines ++ [({ seq := seq, text := line } : LineRecord)]).tail
      else tab.lines ++ [({ seq := seq, text := line } : LineRecord)] := rfl

theorem applyLineGo_length (active_index : Nat) (paused : Bool) (seq : Nat)
    (line : List Char) : ∀ (ts : List Tab) (i0 : Nat),
    (applyLineGo active_index paused seq line i0 ts).length = ts.length := by
  intro ts
  induction ts with
  | nil => intro i0; simp [applyLineGo]
  | cons t rest ih => intro i0; simp [applyLineGo, ih]

theorem applyLineGo_getD (active_index : Nat) (paused : Bool) (seq : Nat)
    (line : List Char) : ∀ (ts : List Tab) (i0 i : Nat) (d : Tab),
    i < ts.length →
    (applyLineGo active_index paused seq line i0 ts).getD i d =
      applyLineStep active_index paused seq line (i0 + i) (ts.getD i d) := by
  intro ts
  induction ts with
  | nil => intro i0 i d h; simp at h
  | cons t rest ih =>
    intro i0 i d h
    cases i with
    | zero => simp [applyLineGo]
    | succ n =>
      have hn : n < rest.length := by simpa using h
      have := ih (i0 + 1) n d hn
      simpa [applyLineGo, Nat.add_assoc, Nat.add_comm 1 n] using this

theorem select_tab_tabs_length (tabs : List Tab) (active_index next_index : Nat)
    (paused : Bool) (snapshot : Option PauseSnapshot) :
    (select_tab tabs active_index next_index paused snapshot).1.length =
      tabs.length := by
  unfold select_tab
  by_cases hge : next_index ≥ tabs.length
  · simp [hge]
  · cases paused <;> cases snapshot <;>
      simp [hge, mark_tab_seen_paused, mark_tab_seen_live, updateAt_length]

theorem select_tab_active_lt (tabs : List Tab) (active_index next_index : Nat)
    (paused : Bool) (snapshot : Option PauseSnapshot)
    (h : active_index < tabs.length) :
    (select_tab tabs active_index next_index paused snapshot).2 < tabs.length := by
  unfold select_tab
  by_cases hge : next_index ≥ tabs.length
  · simpa [hge] using h
  · cases paused <;> cases snapshot <;> simp [hge] <;> omega

theorem push_line_lines_last (tab : Tab) (seq : Nat) (line : List Char) :
    (tab.push_line seq line).lines.getLast? =
      some { seq := seq, text := line } := by
  rw [push_line_lines]
  split
  · rename_i hlen
    cases hl : tab.lines with
    | nil => rw [hl] at hlen; simp [MAX_STORED_LINES_PER_TAB] at hlen
    | cons x xs => simp [List.getLast?_concat]
  · simp [List.getLast?_concat]

theorem push_line_len_le (tab : Tab) (seq : Nat) (line : List Char)
    (h : tab.lines.length ≤ MAX_STORED_LINES_PER_TAB) :
    (tab.push_line seq line).lines.length ≤ MAX_STORED_LINES_PER_TAB := by
  rw [push_line_lines]
  split <;> rename_i hlen <;> simp [MAX_STORED_LINES_PER_TAB] at hlen h ⊢ <;> omega

theorem push_line_lines_of_lt (tab : Tab) (seq : Nat) (line : List Char)
    (h : tab.lines.length < MAX_STORED_LINES_PER_TAB) :
    (tab.push_line seq line).lines =
      tab.lines ++ [({ seq := seq, text := line } : LineRecord)] := by
  rw [push_line_lines]
  split <;> rename_i hlen
  · simp at hlen; omega
  · rfl

theorem push_line_lines_of_ge (tab : Tab) (seq : Nat) (line : List Char)
    (h : MAX_STORED_LINES_PER_TAB ≤ tab.lines.length) :
    (tab.push_line seq line).lines =
      tab.lines.tail ++ [({ seq := seq, text := line } : LineRecord)] := by
  rw [push_line_lines]
  split <;> rename_i hlen
  · cases hl : tab.lines with
    | nil => rw [hl] at h; simp [MAX_STORED_LINES_PER_TAB] at h
    | cons x xs => simp
  · simp [MAX_STORED_LINES_PER_TAB] at hlen h; omega

theorem applyLineStep_no_match (active_index : Nat) (paused : Bool) (seq : Nat)
    (line : List Char) (i : Nat) (tab : Tab) (hm : tab.matches line = false) :
    applyLineStep active_index paused seq line i tab = tab := by
  unfold applyLineStep
  simp [hm]

theorem applyLineStep_match_active (active_index : Nat) (paused : Bool)
    (seq : Nat) (line : List Char) (i : Nat) (tab : Tab)
    (hm : tab.matches line = true) (hact : i = active_index ∧ paused = false) :
    applyLineStep active_index paused seq line i tab =
      (tab.push_line seq line).mark_seen_through
        (tab.push_line seq line).total_matches := by
  unfold applyLineStep
  simp [hm, hact]

theorem applyLineStep_match_inactive (active_index : Nat) (paused : Bool)
    (seq : Nat) (line : List Char) (i : Nat) (tab : Tab)
    (hm : tab.matches line = true) (hact : ¬(i = active_index ∧ paused = false)) :
    applyLineStep active_index paused seq line i tab = tab.push_line seq line := by
  unfold applyLineStep
  simp [hm, hact]

theorem toDecAux_eq : ∀ (fuel n : Nat), n ≤ fuel →
    toDecAux fuel n = (Nat.digits 10 n).reverse.map (fun d => d + 48) := by
  intro fuel
  induction fuel with
  | zero =>
    intro n hn
    have h0 : n = 0 := by omega
    subst h0
    simp [toDecAux]
  | succ fuel ih =>
    intro n hn
    by_cases h0 : n = 0
    · subst h0; simp [toDecAux]
    · have hd : Nat.digits 10 n = n % 10 :: Nat.digits 10 (n / 10) :=
        Nat.digits_def' (by norm_num) (Nat.pos_of_ne_zero h0)
      have hdiv : n / 10 ≤ fuel := by
        have := Nat.div_lt_self (Nat.pos_of_ne_zero h0) (by norm_num : 1 < 10)
        omega
      simp [toDecAux, h0, ih (n / 10) hdiv, hd]

theorem decimalBytes_eq (n : Nat) (h : n ≠ 0) :
    decimalBytes n = (Nat.digits 10 n).reverse.map (fun d => d + 48) := by
  unfold decimalBytes
  rw [if_neg h]
  exact toDecAux_eq n n (Nat.le_refl n)

theorem decimalBytes_mem (n : Nat) : ∀ b ∈ decimalBytes n, 48 ≤ b ∧ b ≤ 57 := by
  by_cases h0 : n = 0
  · subst h0; intro b hb; simp [decimalBytes] at hb; omega
  · rw [decimalBytes_eq n h0]
    intro b hb
    rcases List.mem_map.mp hb with ⟨d, hd, rfl⟩
    have : d < 10 :=
      Nat.digits_lt_base (by norm_num) (List.mem_reverse.mp hd)
    omega

theorem decimalBytes_ne_nil (n : Nat) : decimalBytes n ≠ [] := by
  by_cases h0 : n = 0
  · subst h0; simp [decimalBytes]
  · rw [decimalBytes_eq n h0]
    simp [Nat.digits_ne_nil_iff_ne_zero.mpr h0]

theorem decimalChars_length_le (n : Nat) (h1 : 1 ≤ n) (h9 : n ≤ 999) :
    (decimalChars n).length ≤ 3 := by
  unfold decimalChars
  rw [List.length_map, decimalBytes_eq n (by omega), List.length_map,
    List.length_reverse]
  calc (Nat.digits 10 n).length ≤ (Nat.digits 10 999).length :=
        Nat.le_digits_len_le 10 n 999 h9
  _ = 3 := by simp

theorem findIdxq_none_of_unselected : ∀ (l : List RenderedLine),
    (∀ x ∈ l, x.selected = false) →
    l.findIdx? (fun x => x.selected) = none := by
  intro l h
  induction l with
  | nil => rfl
  | cons a as ih =>
    rw [List.findIdx?_cons]
    have ha : a.selected = false := h a (by simp)
    rw [ha]
    simpa using ih fun x hx => h x (by simp [hx])

theorem findIdx_eq_len_takeWhile (p : RenderedLine → Bool) : ∀ (l : List RenderedLine),
    l.findIdx p = (l.takeWhile (fun a => !(p a))).length := by
  intro l
  induction l with
  | nil => simp
  | cons a as ih =>
    by_cases h : p a
    · simp [List.findIdx_cons, List.takeWhile_cons, h]
    · simp [List.findIdx_cons, List.takeWhile_cons, h, ih]

theorem insertAt_takeWhile_len (q : RenderedLine → Bool) (x : RenderedLine) :
    ∀ (l : List RenderedLine),
    insertAt (l.takeWhile q).length x l =
      l.takeWhile q ++ x :: l.dropWhile q := by
  intro l
  induction l with
  | nil => simp [insertAt]
  | cons a as ih =>
    by_cases h : q a
    · simp [List.takeWhile_cons, List.dropWhile_cons, h, insertAt, ih]
    · simp [List.takeWhile_cons, List.dropWhile_cons, h, insertAt]

theorem markFirst_sorted (s : Nat) : ∀ (l : List LineRecord),
    l.Pairwise (fun a b => a.seq < b.seq) →
    (∃ x ∈ l, x.seq = s) →
    markFirst s (l.map fun r => ({ seq := r.seq, text := r.text, selected := false } : RenderedLine)) =
      l.map fun r =>
        ({ seq := r.seq, text := r.text, selected := decide (r.seq = s) } : RenderedLine) := by
  intro l
  induction l with
  | nil => intro _ hex; simp at hex
  | cons a as ih =>
    intro hp hex
    by_cases ha : a.seq = s
    · have hrest : ∀ r ∈ as, ¬(r.seq = s) := by
        intro r hr
        have := (List.pairwise_cons.mp hp).1 r hr
        omega
      simp only [List.map_cons, markFirst, ha, if_pos]
      refine congrArg₂ _ rfl ?_
      refine List.map_congr_left ?_
      intro r hr
      simp [hrest r hr]
    · have hex' : ∃ x ∈ as, x.seq = s := by
        rcases hex with ⟨x, hx, hxs⟩
        rcases List.mem_cons.mp hx with rfl | hx'
        · exact absurd hxs ha
        · exact ⟨x, hx', hxs⟩
      simp only [List.map_cons, markFirst, ha, if_neg, if_false]
      rw [ih (List.pairwise_cons.mp hp).2 hex']
      simp [ha]

theorem stripRun_resetSeq : stripRun AnsiSt.ground resetSeq = [] := by decide

theorem stripRun_clipRun (t : List Char) : ∀ (st : AnsiSt) (w vis : Nat) (sa : Bool),
    stripRun st (clipRun st w vis sa t) = (stripRun st t).take (w - vis) := by
  induction t with
  | nil => intro st w vis sa; cases st <;> simp [clipRun, stripRun]
  | cons c cs ih =>
    intro st w vis sa
    cases st with
    | ground =>
      by_cases hc : c = escChar
      · subst hc
        have lhs : clipRun AnsiSt.ground w vis sa (escChar :: cs) =
            escChar :: clipRun AnsiSt.sawEsc w vis true cs := by
          simp [clipRun]
        rw [lhs]
        have l2 : stripRun AnsiSt.ground
            (escChar :: clipRun AnsiSt.sawEsc w vis true cs) =
            stripRun AnsiSt.sawEsc (clipRun AnsiSt.sawEsc w vis true cs) := by
          simp [stripRun]
        rw [l2, ih AnsiSt.sawEsc w vis true]
        have r : stripRun AnsiSt.ground (escChar :: cs) =
            stripRun AnsiSt.sawEsc cs := by
          simp [stripRun]
        rw [r]
      · by_cases hw : w ≤ vis
        · have lhs : clipRun AnsiSt.ground w vis sa (c :: cs) =
              (if sa then resetSeq else []) := by
            simp [clipRun, hc, hw]
          rw [lhs]
          have l2 : stripRun AnsiSt.ground (if sa then resetSeq else []) = [] := by
            cases sa
            · simp [stripRun]
            · simpa using stripRun_resetSeq
          rw [l2]
          have hz : w - vis = 0 := by omega
          rw [hz]
          simp
        · have lhs : clipRun AnsiSt.ground w vis sa (c :: cs) =
              c :: clipRun AnsiSt.ground w (vis + 1) sa cs := by
            simp [clipRun, hc, hw]
          rw [lhs]
          have l2 : stripRun AnsiSt.ground
              (c :: clipRun AnsiSt.ground w (vis + 1) sa cs) =
              c :: stripRun AnsiSt.ground (clipRun AnsiSt.ground w (vis + 1) sa cs) := by
            simp [stripRun, hc]
          rw [l2, ih AnsiSt.ground w (vis + 1) sa]
          have r : stripRun AnsiSt.ground (c :: cs) =
              c :: stripRun AnsiSt.ground cs := by
            simp [stripRun, hc]
          rw [r]
          have hsucc : w - vis = (w - (vis + 1)) + 1 := by omega
          rw [hsucc, List.take_succ_cons]
    | sawEsc =>
      by_cases hb : c = Char.ofNat 91
      · have lhs : clipRun AnsiSt.sawEsc w vis sa (c :: cs) =
            c :: clipRun AnsiSt.inCsi w vis sa cs := by
          simp [clipRun, hb]
        rw [lhs]
        have l2 : stripRun AnsiSt.sawEsc (c :: clipRun AnsiSt.inCsi w vis sa cs) =
            stripRun AnsiSt.inCsi (clipRun AnsiSt.inCsi w vis sa cs) := by
          simp [stripRun, hb]
        rw [l2, ih AnsiSt.inCsi w vis sa]
        have r : stripRun AnsiSt.sawEsc (c :: cs) = stripRun AnsiSt.inCsi cs := by
          simp [stripRun, hb]
        rw [r]
      · have lhs : clipRun AnsiSt.sawEsc w vis sa (c :: cs) =
            c :: clipRun AnsiSt.ground w vis sa cs := by
          simp [clipRun, hb]
        rw [lhs]
        have l2 : stripRun AnsiSt.sawEsc (c :: clipRun AnsiSt.ground w vis sa cs) =
            stripRun AnsiSt.ground (clipRun AnsiSt.ground w vis sa cs) := by
          simp [stripRun, hb]
        rw [l2, ih AnsiSt.ground w vis sa]
        have r : stripRun AnsiSt.sawEsc (c :: cs) = stripRun AnsiSt.ground cs := by
          simp [stripRun, hb]
        rw [r]
    | inCsi =>
      by_cases hf : is_ansi_final_byte c = true
      · have lhs : clipRun AnsiSt.inCsi w vis sa (c :: cs) =
            c :: clipRun AnsiSt.ground w vis sa cs := by
          simp [clipRun, hf]
        rw [lhs]
        have l2 : stripRun AnsiSt.inCsi (c :: clipRun AnsiSt.ground w vis sa cs) =
            stripRun AnsiSt.ground (clipRun AnsiSt.ground w vis sa cs) := by
          simp [stripRun, hf]
        rw [l2, ih AnsiSt.ground w vis sa]
        have r : stripRun AnsiSt.inCsi (c :: cs) = stripRun AnsiSt.ground cs := by
          simp [stripRun, hf]
        rw [r]
      · have lhs : clipRun AnsiSt.inCsi w vis sa (c :: cs) =
            c :: clipRun AnsiSt.inCsi w vis sa cs := by
          simp [clipRun, hf]
        rw [lhs]
        have l2 : stripRun AnsiSt.inCsi (c :: clipRun AnsiSt.inCsi w vis sa cs) =
            stripRun AnsiSt.inCsi (clipRun AnsiSt.inCsi w vis sa cs) := by
          simp [stripRun, hf]
        rw [l2, ih AnsiSt.inCsi w vis sa]
        have r : stripRun AnsiSt.inCsi (c :: cs) = stripRun AnsiSt.inCsi cs := by
          simp [stripRun, hf]
        rw [r]

theorem parseU16Digits_eq : ∀ (ds : List Nat), (∀ d ∈ ds, d < 10) →
    ∀ acc : Nat, acc * 10 ^ ds.length + Nat.ofDigits 10 ds.reverse ≤ 65535 →
    parseU16Digits (ds.map (fun d => d + 48)) acc =
      some (acc * 10 ^ ds.length + Nat.ofDigits 10 ds.reverse) := by
  intro ds
  induction ds with
  | nil => intro _ acc _; simp [parseU16Digits]
  | cons d rest ih =>
    intro hlt acc hbound
    have hd : d < 10 := hlt d (by simp)
    have hval : Nat.ofDigits 10 ((d :: rest).reverse) =
        Nat.ofDigits 10 rest.reverse + 10 ^ rest.length * d := by
      rw [List.reverse_cons, Nat.ofDigits_append]
      simp
    have hstep : (acc * 10 + d) * 10 ^ rest.length +
        Nat.ofDigits 10 rest.reverse =
        acc * 10 ^ (d :: rest).length + Nat.ofDigits 10 ((d :: rest).reverse) := by
      rw [hval, List.length_cons, pow_succ]
      ring
    have hone : 1 ≤ 10 ^ rest.length := Nat.one_le_pow _ _ (by norm_num)
    have hacc : acc * 10 + d ≤ 65535 := by
      have : (acc * 10 + d) * 1 ≤ (acc * 10 + d) * 10 ^ rest.length :=
        Nat.mul_le_mul_left _ hone
      omega
    simp only [List.map_cons, parseU16Digits]
    rw [if_pos (by omega : 48 ≤ d + 48 ∧ d + 48 ≤ 57)]
    have hsub : d + 48 - 48 = d := by omega
    rw [hsub] at *
    rw [if_pos hacc]
    rw [ih (fun x hx => hlt x (by simp [hx])) (acc * 10 + d) (by omega)]
    rw [hstep]

theorem parseU16_decimalBytes (n : Nat) (h : n ≤ 65535) :
    parseU16 (decimalBytes n) = some n := by
  by_cases h0 : n = 0
  · subst h0; decide
  · rw [decimalBytes_eq n h0]
    have hds : ∀ d ∈ (Nat.digits 10 n).reverse, d < 10 := fun d hd =>
      Nat.digits_lt_base (by norm_num) (List.mem_reverse.mp hd)
    have hne : (Nat.digits 10 n).reverse ≠ [] := by
      simp [Nat.digits_ne_nil_iff_ne_zero.mpr h0]
    unfold parseU16
    have hhead : ¬ (((Nat.digits 10 n).reverse.map (fun d => d + 48)).head? = some 43) := by
      cases hds' : (Nat.digits 10 n).reverse with
      | nil => exact absurd hds' hne
      | cons d rest => simp [hds']
    rw [if_neg hhead]
    have hmapne : (Nat.digits 10 n).reverse.map (fun d => d + 48) ≠ [] := by
      simpa using hne
    rw [if_neg (by simpa [List.isEmpty_iff] using hmapne)]
    have := parseU16Digits_eq (Nat.digits 10 n).reverse hds 0
      (by simpa [Nat.ofDigits_digits] using h)
    simpa [Nat.ofDigits_digits] using this

theorem splitSemis_no_semi : ∀ (xs : List Nat), (∀ b ∈ xs, b ≠ 59) →
    splitSemis xs = [xs] := by
  intro xs
  induction xs with
  | nil => intro _; rfl
  | cons x rest ih =>
    intro h
    have hx : ¬(x = 59) := h x (by simp)
    have hr := ih fun b hb => h b (by simp [hb])
    simp [splitSemis, hx, hr]

theorem splitSemis_append : ∀ (xs ys : List Nat), (∀ b ∈ xs, b ≠ 59) →
    splitSemis (xs ++ 59 :: ys) = xs :: splitSemis ys := by
  intro xs ys
  induction xs with
  | nil => intro _; simp [splitSemis]
  | cons x rest ih =>
    intro h
    have hx : ¬(x = 59) := h x (by simp)
    have hr := ih fun b hb => h b (by simp [hb])
    simp [splitSemis, hx, hr]

/-! ### Claim theorems -/

/-- C3: starting from a freshly constructed tab (either constructor), every
finite sequence of `push_line` and `mark_seen_through` operations keeps
`seen_matches ≤ total_matches`.  Quantifying over all operation lists
covers the state after each prefix of a run. -/
theorem c3_seen_le_total (filter : List Char) (ops : List TabOp) :
    (applyOps (Tab.new filter) ops).seen_matches ≤
      (applyOps (Tab.new filter) ops).total_matches ∧
    (applyOps Tab.unfiltered ops).seen_matches ≤
      (applyOps Tab.unfiltered ops).total_matches := by
  have step : ∀ (ops : List TabOp) (tab : Tab),
      tab.seen_matches ≤ tab.total_matches →
      (applyOps tab ops).seen_matches ≤ (applyOps tab ops).total_matches := by
    intro ops
    induction ops with
    | nil => intro tab h; simpa [applyOps] using h
    | cons op rest ih =>
      intro tab h
      cases op with
      | push seq line =>
        refine ih _ ?_
        rw [push_line_seen, push_line_total]
        omega
      | markSeen m =>
        refine ih _ ?_
        rw [mark_seen_through_seen, mark_seen_through_total]
        omega
  exact ⟨step ops (Tab.new filter) (by simp [Tab.new]),
         step ops Tab.unfiltered (by simp [Tab.unfiltered])⟩

/-- C1: dispatching one line touches tab `i` exactly when the tab's filter
matches: the record `{seq, line}` is appended (it becomes the back of the
buffer), `total_matches` is incremented, `seen_matches` catches up to the
new total exactly when `i` is the active tab in live mode, a buffer at
capacity `MAX_STORED_LINES_PER_TAB = 5000` evicts its front record, and a
buffer within capacity stays within capacity. -/
theorem c1_accept (tabs : List Tab) (active_index : Nat) (paused : Bool)
    (seq : Nat) (line : List Char) (i : Nat) (d : Tab)
    (h : i < tabs.length)
    (hinv : (tabs.getD i d).seen_matches ≤ (tabs.getD i d).total_matches) :
    ((tabs.getD i d).matches line = false →
      (apply_line_to_tabs tabs active_index paused seq line).getD i d =
        tabs.getD i d) ∧
    ((tabs.getD i d).matches line = true →
      ((apply_line_to_tabs tabs active_index paused seq line).getD i d).total_matches =
        (tabs.getD i d).total_matches + 1 ∧
      ((apply_line_to_tabs tabs active_index paused seq line).getD i d).lines.getLast? =
        some { seq := seq, text := line } ∧
      (i = active_index ∧ paused = false →
        ((apply_line_to_tabs tabs active_index paused seq line).getD i d).seen_matches =
          ((apply_line_to_tabs tabs active_index paused seq line).getD i d).total_matches) ∧
      (¬(i = active_index ∧ paused = false) →
        ((apply_line_to_tabs tabs active_index paused seq line).getD i d).seen_matches =
          (tabs.getD i d).seen_matches) ∧
      ((tabs.getD i d).lines.length ≤ MAX_STORED_LINES_PER_TAB →
        ((apply_line_to_tabs tabs active_index paused seq line).getD i d).lines.length ≤
          MAX_STORED_LINES_PER_TAB) ∧
      ((tabs.getD i d).lines.length < MAX_STORED_LINES_PER_TAB →
        ((apply_line_to_tabs tabs active_index paused seq line).getD i d).lines =
          (tabs.getD i d).lines ++ [({ seq := seq, text := line } : LineRecord)]) ∧
      (MAX_STORED_LINES_PER_TAB ≤ (tabs.getD i d).lines.length →
        ((apply_line_to_tabs tabs active_index paused seq line).getD i d).lines =
          (tabs.getD i d).lines.tail ++
            [({ seq := seq, text := line } : LineRecord)])) := by
  have key : (apply_line_to_tabs tabs active_index paused seq line).getD i d =
      applyLineStep active_index paused seq line i (tabs.getD i d) := by
    simpa [apply_line_to_tabs] using
      applyLineGo_getD active_index paused seq line tabs 0 i d h
  rw [key]
  constructor
  · intro hm
    exact applyLineStep_no_match active_index paused seq line i _ hm
  · intro hm
    by_cases hact : i = active_index ∧ paused = false
    · rw [applyLineStep_match_active active_index paused seq line i _ hm hact]
      refine ⟨?_, ?_, ?_, ?_, ?_, ?_, ?_⟩
      · rw [mark_seen_through_total, push_line_total]
      · rw [mark_seen_through_lines, push_line_lines_last]
      · intro _
        rw [mark_seen_through_seen, mark_seen_through_total, push_line_seen,
            push_line_total]
        omega
      · intro hc; exact absurd hact hc
      · intro hle
        rw [mark_seen_through_lines]
        exact push_line_len_le _ _ _ hle
      · intro hlt
        rw [mark_seen_through_lines]
        exact push_line_lines_of_lt _ _ _ hlt
      · intro hge
        rw [mark_seen_through_lines]
        exact push_line_lines_of_ge _ _ _ hge
    · rw [applyLineStep_match_inactive active_index paused seq line i _ hm hact]
      refine ⟨push_line_total _ _ _, push_line_lines_last _ _ _, ?_, ?_, ?_, ?_, ?_⟩
      · intro hc; exact absurd hc hact
      · intro _; exact push_line_seen _ _ _
      · exact push_line_len_le _ _ _
      · exact push_line_lines_of_lt _ _ _
      · exact push_line_lines_of_ge _ _ _

/-- C1 witness: a concrete dispatch (active tab 0, live mode, matching
line) instantiating every hypothesis of `c1_accept`. -/
theorem c1_accept_witness :
    (0 : Nat) < [Tab.new [Char.ofNat 97]].length ∧
    (([Tab.new [Char.ofNat 97]].getD 0 Tab.unfiltered).matches [Char.ofNat 97] = true →
      ((apply_line_to_tabs [Tab.new [Char.ofNat 97]] 0 false 5 [Char.ofNat 97]).getD 0
          Tab.unfiltered).total_matches =
        ([Tab.new [Char.ofNat 97]].getD 0 Tab.unfiltered).total_matches + 1 ∧
      ((apply_line_to_tabs [Tab.new [Char.ofNat 97]] 0 false 5 [Char.ofNat 97]).getD 0
          Tab.unfiltered).lines.getLast? =
        some { seq := 5, text := [Char.ofNat 97] } ∧
      ((0 : Nat) = 0 ∧ false = false →
        ((apply_line_to_tabs [Tab.new [Char.ofNat 97]] 0 false 5 [Char.ofNat 97]).getD 0
            Tab.unfiltered).seen_matches =
          ((apply_line_to_tabs [Tab.new [Char.ofNat 97]] 0 false 5 [Char.ofNat 97]).getD 0
              Tab.unfiltered).total_matches) ∧
      (¬((0 : Nat) = 0 ∧ false = false) →
        ((apply_line_to_tabs [Tab.new [Char.ofNat 97]] 0 false 5 [Char.ofNat 97]).getD 0
            Tab.unfiltered).seen_matches =
          ([Tab.new [Char.ofNat 97]].getD 0 Tab.unfiltered).seen_matches) ∧
      (([Tab.new [Char.ofNat 97]].getD 0 Tab.unfiltered).lines.length ≤
          MAX_STORED_LINES_PER_TAB →
        ((apply_line_to_tabs [Tab.new [Char.ofNat 97]] 0 false 5 [Char.ofNat 97]).getD 0
            Tab.unfiltered).lines.length ≤ MAX_STORED_LINES_PER_TAB) ∧
      (([Tab.new [Char.ofNat 97]].getD 0 Tab.unfiltered).lines.length <
          MAX_STORED_LINES_PER_TAB →
        ((apply_line_to_tabs [Tab.new [Char.ofNat 97]] 0 false 5 [Char.ofNat 97]).getD 0
            Tab.unfiltered).lines =
          ([Tab.new [Char.ofNat 97]].getD 0 Tab.unfiltered).lines ++
            [({ seq := 5, text := [Char.ofNat 97] } : LineRecord)]) ∧
      (MAX_STORED_LINES_PER_TAB ≤
          ([Tab.new [Char.ofNat 97]].getD 0 Tab.unfiltered).lines.length →
        ((apply_line_to_tabs [Tab.new [Char.ofNat 97]] 0 false 5 [Char.ofNat 97]).getD 0
            Tab.unfiltered).lines =
          ([Tab.new [Char.ofNat 97]].getD 0 Tab.unfiltered).lines.tail ++
            [({ seq := 5, text := [Char.ofNat 97] } : LineRecord)])) :=
  ⟨by decide,
   (c1_accept [Tab.new [Char.ofNat 97]] 0 false 5 [Char.ofNat 97] 0 Tab.unfiltered
      (by decide) (by decide)).2⟩

/-- C2: under pause, switching to tab `i` marks it seen exactly up to the
pause cutoff `c` (which, having been captured as the tab's total at pause
time, satisfies `seen ≤ c ≤ total`), so the unread badge right after the
switch is `total_matches_at_call − match_cutoff[i]`; and
`mark_seen_through` realises `seen := max(seen, min(cutoff, total))`,
never moving `seen_matches` backward. -/
theorem c2_paused_switch (tabs : List Tab) (active_index i : Nat)
    (line_cutoffs match_cutoffs : List Nat) (d : Tab) (c : Nat)
    (h : i < tabs.length)
    (hc : match_cutoffs.get? i = some c)
    (h1 : (tabs.getD i d).seen_matches ≤ c)
    (h2 : c ≤ (tabs.getD i d).total_matches) :
    (select_tab tabs active_index i true
        (some { line_cutoffs := line_cutoffs, match_cutoffs := match_cutoffs })).2 = i ∧
    ((select_tab tabs active_index i true
        (some { line_cutoffs := line_cutoffs, match_cutoffs := match_cutoffs })).1.getD
          i d).seen_matches = c ∧
    ((select_tab tabs active_index i true
        (some { line_cutoffs := line_cutoffs, match_cutoffs := match_cutoffs })).1.getD
          i d).unread_matches = (tabs.getD i d).total_matches - c ∧
    (∀ (tab : Tab) (m : Nat),
      tab.seen_matches ≤ (tab.mark_seen_through m).seen_matches ∧
      (tab.mark_seen_through m).seen_matches =
        max tab.seen_matches (min m tab.total_matches)) := by
  have hnot : ¬ i ≥ tabs.length := by omega
  have hsel : select_tab tabs active_index i true
      (some { line_cutoffs := line_cutoffs, match_cutoffs := match_cutoffs }) =
      (mark_tab_seen_paused tabs i match_cutoffs, i) := by
    unfold select_tab
    simp [hnot]
  have hcut : match_cutoffs.getD i (tabs.getD i d).total_matches = c :=
    getD_of_getq hc _
  have hup : (mark_tab_seen_paused tabs i match_cutoffs).getD i d =
      (tabs.getD i d).mark_seen_through
        (match_cutoffs.getD i (tabs.getD i d).total_matches) := by
    unfold mark_tab_seen_paused
    exact updateAt_getD tabs i _ d h
  rw [hsel]
  refine ⟨rfl, ?_, ?_, ?_⟩
  · dsimp only
    rw [hup, hcut, mark_seen_through_seen]
    omega
  · dsimp only
    rw [hup, hcut]
    unfold Tab.unread_matches
    rw [mark_seen_through_seen, mark_seen_through_total]
    omega
  · intro tab m
    constructor
    · rw [mark_seen_through_seen]; omega
    · exact mark_seen_through_seen tab m

/-- C2 witness: one tab with `total_matches = 2`, `seen_matches = 0`, pause
cutoff 1; switching to it yields `seen = 1` and `unread = 2 - 1`. -/
theorem c2_paused_switch_witness :
    ((select_tab
        [{ label := [], mode := MatchMode.All,
           lines := [], total_matches := 2, seen_matches := 0 }] 0 0 true
        (some { line_cutoffs := [0], match_cutoffs := [1] })).1.getD 0
          Tab.unfiltered).unread_matches =
      ([({ label := [], mode := MatchMode.All,
           lines := [], total_matches := 2, seen_matches := 0 } : Tab)].getD 0
          Tab.unfiltered).total_matches - 1 :=
  (c2_paused_switch
    [{ label := [], mode := MatchMode.All,
       lines := [], total_matches := 2, seen_matches := 0 }] 0 0 [0] [1]
    Tab.unfiltered 1 (by decide) (by decide) (by decide) (by decide)).2.2.1

/-- C8 counterexample: the claim says a line ending in a lone `\r` (no
`\n`) is delivered with the `\r` trimmed; the reader only pops `\r` inside
the branch that popped a `\n`, so the line `"a\r"` is forwarded intact. -/
theorem c8_counterexample :
    trimLine [Char.ofNat 97, Char.ofNat 13] ≠ [Char.ofNat 97] := by
  decide

/-- C8 (amended): a trailing `\n` is removed and, only when that `\n` was
present, a trailing `\r` before it is also removed (CRLF); a line with no
trailing `\n` — including one ending in a lone `\r` — is forwarded
unchanged, and no other transformation is applied. -/
theorem c8_trim_amended :
    (∀ xs : List Char, trimLine (xs ++ [Char.ofNat 10]) =
      if xs.getLast? = some (Char.ofNat 13) then xs.dropLast else xs) ∧
    (∀ s : List Char, s.getLast? ≠ some (Char.ofNat 10) → trimLine s = s) := by
  constructor
  · intro xs
    unfold trimLine
    simp [List.getLast?_concat, List.dropLast_concat]
  · intro s hs
    unfold trimLine
    simp [hs]

/-- C8 witness: the amended statement applied to the lone-`\r` line. -/
theorem c8_trim_amended_witness :
    trimLine [Char.ofNat 97, Char.ofNat 13] = [Char.ofNat 97, Char.ofNat 13] :=
  c8_trim_amended.2 [Char.ofNat 97, Char.ofNat 13] (by decide)

/-- C10: every UI event handler keeps the tab list length fixed and keeps
`active_index` in bounds (`NextTab` wraps modulo the length; `SelectTab`
and mouse tab clicks are rejected by `select_tab` when out of range), and
line dispatch also preserves the tab count — so the draw routine's
indexing of `tabs[active_index]` stays in bounds. -/
theorem c10_active_index_in_bounds (s : AppState) (msg : UiMessage)
    (h : s.active_index < s.tabs.length) :
    (handleUi s msg).tabs.length = s.tabs.length ∧
    (handleUi s msg).active_index < (handleUi s msg).tabs.length ∧
    ∀ (seq : Nat) (line : List Char),
      (apply_line_to_tabs s.tabs s.active_index s.paused seq line).length =
        s.tabs.length := by
  have hline : ∀ (seq : Nat) (line : List Char),
      (apply_line_to_tabs s.tabs s.active_index s.paused seq line).length =
        s.tabs.length := by
    intro seq line
    simpa [apply_line_to_tabs] using
      applyLineGo_length s.active_index s.paused seq line s.tabs 0
  cases msg with
  | NextTab =>
    refine ⟨?_, ?_, hline⟩
    · simpa [handleUi] using select_tab_tabs_length s.tabs s.active_index _ s.paused
        s.pause_snapshot
    · have h1 := select_tab_tabs_length s.tabs s.active_index
        ((s.active_index + 1) % s.tabs.length) s.paused s.pause_snapshot
      have h2 := select_tab_active_lt s.tabs s.active_index
        ((s.active_index + 1) % s.tabs.length) s.paused s.pause_snapshot h
      simp only [handleUi]
      omega
  | SelectTab tab_index =>
    by_cases hti : tab_index < s.tabs.length
    · refine ⟨?_, ?_, hline⟩
      · simpa [handleUi, hti] using select_tab_tabs_length s.tabs s.active_index
          tab_index s.paused s.pause_snapshot
      · have h1 := select_tab_tabs_length s.tabs s.active_index tab_index s.paused
          s.pause_snapshot
        have h2 := select_tab_active_lt s.tabs s.active_index tab_index s.paused
          s.pause_snapshot h
        simp only [handleUi, hti, if_true]
        omega
    · exact ⟨by simp [handleUi, hti], by simpa [handleUi, hti] using h, hline⟩
  | TogglePause =>
    refine ⟨?_, ?_, hline⟩ <;>
      cases hp : s.paused <;>
        simp [handleUi, hp, mark_tab_seen_paused, mark_tab_seen_live,
          updateAt_length, h]
  | ClearSelection => exact ⟨rfl, h, hline⟩
  | SelectMiddleVisibleLine =>
    cases hm : middle_visible_line s.last_render_state with
    | none => exact ⟨by simp [handleUi, hm], by simpa [handleUi, hm] using h, hline⟩
    | some line => exact ⟨by simp [handleUi, hm], by simpa [handleUi, hm] using h, hline⟩
  | MouseLeftDown column row =>
    cases ht : tab_index_at_position s.last_render_state column row with
    | some tab_index =>
      refine ⟨?_, ?_, hline⟩
      · simpa [handleUi, ht] using select_tab_tabs_length s.tabs s.active_index
          tab_index s.paused s.pause_snapshot
      · have h1 := select_tab_tabs_length s.tabs s.active_index tab_index s.paused
          s.pause_snapshot
        have h2 := select_tab_active_lt s.tabs s.active_index tab_index s.paused
          s.pause_snapshot h
        simp only [handleUi, ht]
        omega
    | none =>
      cases hl : line_at_row s.last_render_state row with
      | none => exact ⟨by simp [handleUi, ht, hl], by simpa [handleUi, ht, hl] using h, hline⟩
      | some line => exact ⟨by simp [handleUi, ht, hl], by simpa [handleUi, ht, hl] using h, hline⟩
  | Quit => exact ⟨rfl, h, hline⟩
  | Error msg => exact ⟨rfl, h, hline⟩

/-- C4: with `N = |L|`, `H` the body height and `V = min N H > 0`: live
mode, and paused mode without any selected entry, bottom-anchor the last
`V` entries starting at screen row `body_start + (H − V)`; paused mode
with the (first) selected entry at index `k` starts the window at
`s = min(max(0, k − H/2), N − V)` and prints first at
`clamp(body_start + H/2 − (k − s), body_start, body_start + H − V)`
(written as `min hi (max lo ·)`, with truncated subtraction). -/
theorem c4_viewport (body_start_row body_height : Nat)
    (lines : List RenderedLine) (paused : Bool)
    (hV : 0 < min lines.length body_height) :
    (paused = false →
      viewport_for_lines body_start_row body_height lines paused =
        (lines.length - min lines.length body_height,
         min lines.length body_height,
         body_start_row + (body_height - min lines.length body_height))) ∧
    (paused = true → (∀ l ∈ lines, l.selected = false) →
      viewport_for_lines body_start_row body_height lines paused =
        (lines.length - min lines.length body_height,
         min lines.length body_height,
         body_start_row + (body_height - min lines.length body_height))) ∧
    (∀ k : Nat, paused = true →
      lines.findIdx? (fun l => l.selected) = some k →
      viewport_for_lines body_start_row body_height lines paused =
        (min (k - body_height / 2)
           (lines.length - min lines.length body_height),
         min lines.length body_height,
         min (body_start_row + (body_height - min lines.length body_height))
           (max body_start_row
             (body_start_row + (body_height / 2 -
               (k - min (k - body_height / 2)
                 (lines.length - min lines.length body_height))))))) := by
  refine ⟨?_, ?_, ?_⟩
  · intro hp
    subst hp
    unfold viewport_for_lines
    rw [if_neg (by omega)]
    simp [first_body_row]
  · intro hp hall
    subst hp
    unfold viewport_for_lines
    rw [if_neg (by omega)]
    simp only [if_true, findIdxq_none_of_unselected lines hall]
    simp [first_body_row]
  · intro k hp hfind
    subst hp
    unfold viewport_for_lines
    rw [if_neg (by omega)]
    simp only [if_true, hfind]
    simp only [Prod.mk.injEq]
    and_intros <;> first
      | trivial
      | (split_ifs <;> omega)

/-- C4 witness: the 20-line pool with the entry at index 10 selected, body
start 3, height 10 (the paused centering scenario). -/
theorem c4_viewport_witness :
    viewport_for_lines 3 10
      ((List.range 20).map fun i =>
        ({ seq := i, text := [], selected := decide (i = 10) } : RenderedLine))
      true =
    (min (10 - 10 / 2)
       (((List.range 20).map fun i =>
          ({ seq := i, text := [], selected := decide (i = 10) } : RenderedLine)).length -
        min ((List.range 20).map fun i =>
          ({ seq := i, text := [], selected := decide (i = 10) } : RenderedLine)).length 10),
     min ((List.range 20).map fun i =>
       ({ seq := i, text := [], selected := decide (i = 10) } : RenderedLine)).length 10,
     min (3 + (10 - min ((List.range 20).map fun i =>
           ({ seq := i, text := [], selected := decide (i = 10) } : RenderedLine)).length 10))
       (max 3 (3 + (10 / 2 - (10 - min (10 - 10 / 2)
         (((List.range 20).map fun i =>
            ({ seq := i, text := [], selected := decide (i = 10) } : RenderedLine)).length -
          min ((List.range 20).map fun i =>
            ({ seq := i, text := [], selected := decide (i = 10) } : RenderedLine)).length
            10)))))) :=
  (c4_viewport 3 10
    ((List.range 20).map fun i =>
      ({ seq := i, text := [], selected := decide (i = 10) } : RenderedLine))
    true (by decide)).2.2 10 rfl (by decide)

/-- C5: feeding `ESC [ < 0 ; 12 ; 7 M` to the decoder from `Ground` emits
exactly the single event `MouseLeftDown 11 6`; and in general a completed
CSI of the form `<Cb;Col;RowM` decodes to
`MouseLeftDown (Col−1) (Row−1)` (saturating at 0) iff `Cb & 0b11 = 0` and
the motion bit `0x20` and wheel bit `0x40` are clear, and to nothing
otherwise. -/
theorem c5_sgr_mouse_decode (cb col row : Nat) (hcb : cb ≤ 65535)
    (hcol : col ≤ 65535) (hrow : row ≤ 65535) :
    runFeed InputParserState.Ground [27, 91, 60, 48, 59, 49, 50, 59, 55, 77] =
      (InputParserState.Ground, [UiMessage.MouseLeftDown 11 6]) ∧
    try_parse_sgr_mouse_message
        (60 :: decimalBytes cb ++ 59 :: decimalBytes col ++ 59 :: decimalBytes row
          ++ [77]) =
      (if cb &&& 3 = 0 ∧ cb &&& 32 = 0 ∧ cb &&& 64 = 0 then
        some (UiMessage.MouseLeftDown (col - 1) (row - 1))
      else none) := by
  constructor
  · decide
  · have hns : ∀ n : Nat, ∀ b ∈ decimalBytes n, b ≠ 59 := by
      intro n b hb
      have := decimalBytes_mem n b hb
      omega
    have hassoc : 60 :: decimalBytes cb ++ 59 :: decimalBytes col ++
        59 :: decimalBytes row ++ [77] =
        (60 :: (decimalBytes cb ++ 59 :: (decimalBytes col ++
          59 :: decimalBytes row))) ++ [77] := by
      simp
    rw [hassoc]
    unfold try_parse_sgr_mouse_message
    rw [List.getLast?_concat, List.dropLast_concat]
    simp only [List.head?_cons, List.tail_cons, Option.some.injEq, and_true,
      if_pos (And.intro rfl rfl)]
    rw [splitSemis_append _ _ (hns cb), splitSemis_append _ _ (hns col),
      splitSemis_no_semi _ (hns row)]
    simp [parseU16_decimalBytes cb hcb, parseU16_decimalBytes col hcol,
      parseU16_decimalBytes row hrow]

/-- C5 witness: `Cb = 0`, `Col = 12`, `Row = 7` (the left press). -/
theorem c5_sgr_mouse_decode_witness :
    try_parse_sgr_mouse_message
        (60 :: decimalBytes 0 ++ 59 :: decimalBytes 12 ++ 59 :: decimalBytes 7
          ++ [77]) =
      (if (0 : Nat) &&& 3 = 0 ∧ (0 : Nat) &&& 32 = 0 ∧ (0 : Nat) &&& 64 = 0 then
        some (UiMessage.MouseLeftDown (12 - 1) (7 - 1))
      else none) :=
  (c5_sgr_mouse_decode 0 12 7 (by decide) (by decide) (by decide)).2

/-- C6: for a pool with strictly ascending `seq`s and any pin: when some
pool entry carries the pin's `seq`, the result is the pool with exactly
that entry marked selected and nothing inserted; otherwise a synthetic
selected line is inserted at the first position whose `seq` exceeds the
pin's (at the end when none does, which is the `takeWhile`/`dropWhile`
split below) — and the splice depends only on the tab's line buffer, not
on its filter, so it happens on every tab alike. -/
theorem c6_pin_splice :
    (∀ (t1 t2 : Tab) (cutoff : Nat) (sel : Option SelectedLine),
      t1.lines = t2.lines →
      prepare_visible_lines t1 cutoff sel = prepare_visible_lines t2 cutoff sel) ∧
    (∀ (tab : Tab) (cutoff : Nat) (sel : SelectedLine),
      tab.lines.Pairwise (fun a b => a.seq < b.seq) →
      (∃ x ∈ tab.lines.take cutoff, x.seq = sel.seq) →
      prepare_visible_lines tab cutoff (some sel) =
        (tab.lines.take cutoff).map fun r =>
          ({ seq := r.seq, text := r.text,
             selected := decide (r.seq = sel.seq) } : RenderedLine)) ∧
    (∀ (tab : Tab) (cutoff : Nat) (sel : SelectedLine),
      (∀ x ∈ tab.lines.take cutoff, ¬(x.seq = sel.seq)) →
      prepare_visible_lines tab cutoff (some sel) =
        ((tab.lines.take cutoff).map fun r =>
            ({ seq := r.seq, text := r.text, selected := false } : RenderedLine)).takeWhile
          (fun r => r.seq ≤ sel.seq) ++
        { seq := sel.seq, text := sel.text, selected := true } ::
          ((tab.lines.take cutoff).map fun r =>
              ({ seq := r.seq, text := r.text, selected := false } : RenderedLine)).dropWhile
            (fun r => r.seq ≤ sel.seq)) := by
  refine ⟨?_, ?_, ?_⟩
  · intro t1 t2 cutoff sel h
    unfold prepare_visible_lines
    rw [h]
  · intro tab cutoff sel hsorted hex
    have hany : ((tab.lines.take cutoff).map fun r =>
        ({ seq := r.seq, text := r.text, selected := false } : RenderedLine)).any
          (fun l => l.seq = sel.seq) = true := by
      rcases hex with ⟨x, hx, hxs⟩
      simp only [List.any_eq_true]
      exact ⟨{ seq := x.seq, text := x.text, selected := false },
        List.mem_map_of_mem _ hx, by simpa using hxs⟩
    unfold prepare_visible_lines
    simp only [hany, if_pos]
    exact markFirst_sorted sel.seq (tab.lines.take cutoff)
      (List.Pairwise.sublist (List.take_sublist cutoff tab.lines) hsorted) hex
  · intro tab cutoff sel hnone
    have hany : ((tab.lines.take cutoff).map fun r =>
        ({ seq := r.seq, text := r.text, selected := false } : RenderedLine)).any
          (fun l => l.seq = sel.seq) = false := by
      simp only [List.any_eq_false]
      intro y hy
      rcases List.mem_map.mp hy with ⟨x, hx, rfl⟩
      simpa using hnone x hx
    unfold prepare_visible_lines
    simp only [hany, Bool.false_eq_true, if_false]
    rw [findIdx_eq_len_takeWhile]
    have hq : (fun a : RenderedLine => !(decide (sel.seq < a.seq))) =
        (fun r : RenderedLine => decide (r.seq ≤ sel.seq)) := by
      funext a
      by_cases h : sel.seq < a.seq
      · have h2 : ¬(a.seq ≤ sel.seq) := by omega
        simp [h, h2]
      · have h2 : a.seq ≤ sel.seq := by omega
        simp [h, h2]
    rw [hq, insertAt_takeWhile_len]

/-- C6 witness: the tab holding records with `seq` 1 and 3 and a pin at
`seq` 2 that matches neither (the source's injected-pin scenario). -/
theorem c6_pin_splice_witness :
    prepare_visible_lines
      { label := [], mode := MatchMode.Contains [Char.ofNat 102],
        lines := [{ seq := 1, text := [] }, { seq := 3, text := [] }],
        total_matches := 2, seen_matches := 0 } 2
      (some { seq := 2, text := [Char.ofNat 112] }) =
    (([({ seq := 1, text := [] } : LineRecord),
       { seq := 3, text := [] }].take 2).map fun r =>
        ({ seq := r.seq, text := r.text, selected := false } : RenderedLine)).takeWhile
      (fun r => r.seq ≤ 2) ++
    { seq := 2, text := [Char.ofNat 112], selected := true } ::
      (([({ seq := 1, text := [] } : LineRecord),
         { seq := 3, text := [] }].take 2).map fun r =>
          ({ seq := r.seq, text := r.text, selected := false } : RenderedLine)).dropWhile
        (fun r => r.seq ≤ 2) :=
  c6_pin_splice.2.2
    { label := [], mode := MatchMode.Contains [Char.ofNat 102],
      lines := [{ seq := 1, text := [] }, { seq := 3, text := [] }],
      total_matches := 2, seen_matches := 0 } 2
    { seq := 2, text := [Char.ofNat 112] } (by decide)

/-- C7: ANSI-preserving clipping agrees with plain clipping up to style
bytes: stripping escapes from the ANSI-aware clip of any text at any
width yields exactly the plain clip of the stripped text. -/
theorem c7_clip_strip_commute (text : List Char) (width : Nat) :
    strip_ansi (clip_ansi_to_visible_width text width) =
      clip_to_width (strip_ansi text) width := by
  unfold strip_ansi clip_ansi_to_visible_width clip_to_width
  by_cases hw : width = 0
  · simp [hw, stripRun]
  · rw [if_neg hw, if_neg hw]
    simpa using stripRun_clipRun text AnsiSt.ground width 0 false

/-- C9: the unread badge slot always holds exactly 6 characters: six
spaces for 0, the bullet-plus-decimal badge right-justified (left-padded
with spaces) into 6 columns for 1..999, and the capped badge `" •999+"`
above 999. -/
theorem c9_unread_slot (N : Nat) :
    (format_unread_slot N).length = 6 ∧
    (N = 0 → format_unread_slot N = List.replicate 6 (Char.ofNat 32)) ∧
    (1 ≤ N → N ≤ 999 →
      format_unread_slot N =
        List.replicate (6 - (Char.ofNat 8226 :: decimalChars N).length)
            (Char.ofNat 32) ++ Char.ofNat 8226 :: decimalChars N) ∧
    (N > 999 →
      format_unread_slot N =
        [Char.ofNat 32, Char.ofNat 8226, Char.ofNat 57, Char.ofNat 57,
         Char.ofNat 57, Char.ofNat 43]) := by
  refine ⟨?_, ?_, ?_, ?_⟩
  · by_cases h0 : N = 0
    · simp [format_unread_slot, h0]
    · by_cases h9 : N > 999
      · simp [format_unread_slot, h0, h9]
      · have hle : (decimalChars N).length ≤ 3 :=
          decimalChars_length_le N (by omega) (by omega)
        unfold format_unread_slot
        rw [if_neg h0]
        simp only [h9, if_false, gt_iff_lt, Nat.lt_irrefl]
        rw [List.length_append, List.length_replicate]
        simp only [List.length_cons]
        omega
  · intro h0; simp [format_unread_slot, h0]
  · intro h1 h9
    unfold format_unread_slot
    rw [if_neg (by omega)]
    simp only [gt_iff_lt]
    rw [if_neg (by omega)]
  · intro h9
    unfold format_unread_slot
    rw [if_neg (by omega)]
    simp only [gt_iff_lt]
    rw [if_pos (by omega)]
    rfl

/-- C9 witness: the badge for 7 unread lines. -/
theorem c9_unread_slot_witness :
    format_unread_slot 7 =
      List.replicate (6 - (Char.ofNat 8226 :: decimalChars 7).length)
          (Char.ofNat 32) ++ Char.ofNat 8226 :: decimalChars 7 :=
  (c9_unread_slot 7).2.2.1 (by decide) (by decide)

/-- C10 witness: a two-tab state receiving `NextTab`. -/
theorem c10_active_index_in_bounds_witness :
    (handleUi
      { tabs := [Tab.unfiltered, Tab.new [Char.ofNat 97]], active_index := 0,
        paused := false, pause_snapshot := none, selected_line := none,
        last_render_state := { tab_hitboxes := [], line_rows := [] } }
      UiMessage.NextTab).active_index <
      (handleUi
        { tabs := [Tab.unfiltered, Tab.new [Char.ofNat 97]], active_index := 0,
          paused := false, pause_snapshot := none, selected_line := none,
          last_render_state := { tab_hitboxes := [], line_rows := [] } }
        UiMessage.NextTab).tabs.length :=
  (c10_active_index_in_bounds
    { tabs := [Tab.unfiltered, Tab.new [Char.ofNat 97]], active_index := 0,
      paused := false, pause_snapshot := none, selected_line := none,
      last_render_state := { tab_hitboxes := [], line_rows := [] } }
    UiMessage.NextTab (by decide)).2.1

/-- Sanity check: the motion-bit report `ESC [ < 35 ; 12 ; 7 M` emits no
event. -/
theorem runFeed_motion_report_silent :
    runFeed InputParserState.Ground [27, 91, 60, 51, 53, 59, 49, 50, 59, 55, 77] =
      (InputParserState.Ground, []) := by
  decide

/-- Sanity check: the byte-level `u16` parse rejects values past 65535. -/
theorem parseU16_overflow : parseU16 [54, 53, 53, 51, 54] = none := by decide
